import Mathlib

/-!
# SpeakTeX — verification of the Speech-to-LaTeX conversion pipeline

Shallow embedding of the core of the SpeakTeX repository:

* the phrase normalizer `convertToLatex` (FrontEnd `Home` component,
  `src/unnamed/part_002`, lines 61–139): a chain of JavaScript
  `String.replace(regex, replacement)` calls with `g`-flagged regexes,
  followed by a bracket-balance repair step;
* the recording session controller (`AudioRecorder/index.jsx`):
  `startRecording`'s 1-second interval timer with the 30-second auto-stop,
  `stopRecording`, and the chunk buffer (`handleDataAvailable`/`handleStop`);
* the staged transcription workflow `sendAudioToBackend`
  (`AudioRecorder/index.jsx`, lines 97–173);
* the markdown-fence cleanup of the generative service's reply
  (`geminiService.js`, `convertToLatex`, lines 60–69).

The regexes used by the source are of a very restricted shape: sequences of
literals, `(\w+)`, `(\d+)`, `\s+`/`\s*`, with optional `\b` word boundaries
at both ends, and every boundary sits next to a word character, so a `\b`
amounts to "the neighbouring character (if any) is not a word character".
Each `(\w+)`/`(\d+)`/`\s+` is followed either by nothing or by a literal
starting with a character outside its class, so greedy matching never needs
to backtrack: a capture is exactly the maximal run of its class.  The engine
below (`runRule`) implements JavaScript's global-replace semantics for this
shape: scan left to right, replace the leftmost match, resume immediately
after the matched text of the original string (replacements are not
rescanned), and thread the last matched character so that word-boundary
checks of later matches see the original string.  All character classes are
the ASCII parts of the JS classes; every string the claims touch is ASCII.
-/

namespace SpeakTeX

set_option maxHeartbeats 4000000

/-- JS `\w` character class, ASCII: `[A-Za-z0-9_]`. -/
def isWordChar (c : Char) : Bool := c.isAlpha || c.isDigit || c == '_'

/-- JS `\d` character class: `[0-9]`. -/
def isDigitChar (c : Char) : Bool := c.isDigit

/-- JS `\s` character class (its ASCII members): space, tab, LF, VT, FF, CR. -/
def isWsChar (c : Char) : Bool :=
  c == ' ' || c == '\t' || c == '\n' || c == '\x0b' || c == '\x0c' || c == '\r'

/-- ASCII lower-casing, the fragment of JS `toLowerCase` the pipeline relies on. -/
def toLowerAscii (c : Char) : Char :=
  if c.isUpper then Char.ofNat (c.toNat + 32) else c

/-- One atom of a source regex: a literal, `(\w+)`, `(\d+)`, `\s+`, or `\s*`. -/
inductive Piece where
  | lit (s : List Char)
  | wordRun
  | digitRun
  | wsRun
  | wsStar
deriving DecidableEq

/-- One atom of a replacement string: a literal or a capture reference `$i`. -/
inductive RepPiece where
  | lit (s : List Char)
  | cap (i : Nat)
deriving DecidableEq

/-- An entry of the ordered substitution table: a regex (with optional leading
and trailing `\b`) and its replacement. -/
structure Rule where
  bStart : Bool
  bEnd : Bool
  pat : List Piece
  rep : List RepPiece
deriving DecidableEq

/-- Consume a literal from the front of the input; return the rest. -/
def takeLit : List Char → List Char → Option (List Char)
  | [], cs => some cs
  | _ :: _, [] => none
  | p :: ps, c :: cs => if c = p then takeLit ps cs else none

/-- Match a piece sequence at the front of the input.  Returns the list of
captured runs (one per `(\w+)`/`(\d+)`, in order), the number of characters
consumed, and the unconsumed rest.  Runs are maximal, which coincides with
JS greedy matching for the rule shapes used by the source (see the header
comment). -/
def matchPieces : List Piece → List Char → Option (List (List Char) × Nat × List Char)
  | [], cs => some ([], 0, cs)
  | Piece.lit s :: ps, cs =>
    match takeLit s cs with
    | none => none
    | some cs2 =>
      match matchPieces ps cs2 with
      | none => none
      | some (caps, n, rest) => some (caps, s.length + n, rest)
  | Piece.wordRun :: ps, cs =>
    let run := cs.takeWhile isWordChar
    if run = [] then none
    else
      match matchPieces ps (cs.drop run.length) with
      | none => none
      | some (caps, n, rest) => some (run :: caps, run.length + n, rest)
  | Piece.digitRun :: ps, cs =>
    let run := cs.takeWhile isDigitChar
    if run = [] then none
    else
      match matchPieces ps (cs.drop run.length) with
      | none => none
      | some (caps, n, rest) => some (run :: caps, run.length + n, rest)
  | Piece.wsRun :: ps, cs =>
    let run := cs.takeWhile isWsChar
    if run = [] then none
    else
      match matchPieces ps (cs.drop run.length) with
      | none => none
      | some (caps, n, rest) => some (caps, run.length + n, rest)
  | Piece.wsStar :: ps, cs =>
    let run := cs.takeWhile isWsChar
    match matchPieces ps (cs.drop run.length) with
    | none => none
    | some (caps, n, rest) => some (caps, run.length + n, rest)

/-- Instantiate a replacement template with the captured runs. -/
def buildRep (caps : List (List Char)) : List RepPiece → List Char
  | [] => []
  | RepPiece.lit s :: rs => s ++ buildRep caps rs
  | RepPiece.cap i :: rs => caps.getD i [] ++ buildRep caps rs

/-- A `\b` at a match edge, for patterns whose edge character is a word
character: the neighbouring character must be absent or a non-word character. -/
def boundaryOk (prev : Option Char) : Bool :=
  match prev with
  | none => true
  | some c => !isWordChar c

/-- Try a rule at the current position `c :: cs`, where `prev` is the
character of the original string just before this position (if any).
On success, return the instantiated replacement and the number of characters
of `cs` consumed in addition to `c`. -/
def applyRule (r : Rule) (prev : Option Char) (c : Char) (cs : List Char) :
    Option (List Char × Nat) :=
  if r.bStart && !boundaryOk prev then none
  else
    match matchPieces r.pat (c :: cs) with
    | none => none
    | some (caps, n, rest) =>
      if r.bEnd && !(match rest with | [] => true | d :: _ => !isWordChar d) then none
      else some (buildRep caps r.rep, n - 1)

/-- Global-replace scanner.  `fuel` only serves totality; it is consumed one
unit per position advanced, so any `fuel ≥ length of the input` computes the
replacement (`runRule` passes exactly the length).  `prev` is the previous
character of the original string, used for `\b` checks. -/
def runRuleFuel (r : Rule) : Nat → Option Char → List Char → List Char
  | _, _, [] => []
  | 0, _, l => l
  | Nat.succ n, prev, c :: cs =>
    match applyRule r prev c cs with
    | some (rep, k) =>
      rep ++ runRuleFuel r n (some ((cs.take k).getLastD c)) (cs.drop k)
    | none => c :: runRuleFuel r n (some c) cs

/-- JS `text.replace(regex, replacement)` with a `g`-flagged regex of the
restricted shape, on char lists. -/
def runRule (r : Rule) (l : List Char) : List Char :=
  runRuleFuel r l.length none l

/-- Apply an ordered list of substitution rules in sequence (a chain of
`.replace` calls). -/
def applyRules (rs : List Rule) (l : List Char) : List Char :=
  rs.foldl (fun acc r => runRule r acc) l

/-- A whole-word rule `\b<word>\b` → literal replacement. -/
def wordRule (w : String) (rep : String) : Rule :=
  { bStart := true, bEnd := true,
    pat := [Piece.lit w.data], rep := [RepPiece.lit rep.data] }

/-- JS `trim` on char lists: drop leading whitespace. -/
def trimL (l : List Char) : List Char := l.dropWhile isWsChar

/-- JS `trim` on char lists: drop trailing whitespace. -/
def trimR (l : List Char) : List Char := (l.reverse.dropWhile isWsChar).reverse

/-- JS `String.trim` on char lists. -/
def trimBoth (l : List Char) : List Char := trimR (trimL l)

/-- Count the non-overlapping matches of a piece sequence, scanning left to
right — JS `(text.match(regex) || []).length` for a `g`-flagged regex.
`fuel` serves totality exactly as in `runRuleFuel`. -/
def countPatFuel (ps : List Piece) : Nat → List Char → Nat
  | _, [] => 0
  | 0, _ => 0
  | Nat.succ n, c :: cs =>
    match matchPieces ps (c :: cs) with
    | some (_, k, _) => 1 + countPatFuel ps n (cs.drop (k - 1))
    | none => countPatFuel ps n cs

/-- Number of matches of a restricted-shape regex in a string. -/
def countPat (ps : List Piece) (l : List Char) : Nat := countPatFuel ps l.length l

/-- The pattern `\\sqrt\{` of the repair step. -/
def sqrtOpenPat : List Piece := [Piece.lit "\\sqrt\x7b".data]

/-- The pattern `\\sqrt\[\d+\]\{` of the repair step. -/
def sqrtIdxPat : List Piece :=
  [Piece.lit "\\sqrt[".data, Piece.digitRun, Piece.lit "]\x7b".data]

/-- `openSqrt` of the source: matches of `\\sqrt\{` plus matches of
`\\sqrt\[\d+\]\{`. -/
def openSqrtCount (l : List Char) : Nat := countPat sqrtOpenPat l + countPat sqrtIdxPat l

/-- The bracket-balance repair (source lines 130–136): if the root-opening
count exceeds the count of `}` characters, append the deficit of `}`. -/
def braceRepair (l : List Char) : List Char :=
  let openSqrt := openSqrtCount l
  let closeBraces := l.count '\x7d'
  if closeBraces < openSqrt then l ++ List.replicate (openSqrt - closeBraces) '\x7d'
  else l

/-- The `wordToNumber` table of the source (object keys in insertion order). -/
def wordToNumber : List (String × String) :=
  [("zero", "0"), ("one", "1"), ("two", "2"), ("three", "3"), ("four", "4"),
   ("five", "5"), ("six", "6"), ("seven", "7"), ("eight", "8"), ("nine", "9"),
   ("ten", "10")]

/-- The word-number pass (source lines 81–84): for each table entry, in
order, replace `\b<word>\b` by the digit string. -/
def numberRules : List Rule := wordToNumber.map (fun p => wordRule p.1 p.2)

/-- The ordered substitution chain of source lines 87–128, in source order,
ending with the whitespace collapse `\s+` → `" "`. -/
def mathRules : List Rule :=
  [ wordRule "plus" "+",
    wordRule "minus" "-",
    wordRule "times" "\\times ",
    wordRule "divided by" "\\div ",
    wordRule "equal to" "=",
    wordRule "equals" "=",
    wordRule "is equal to" "=",
    wordRule "squared" "^2",
    wordRule "cubed" "^3",
    { bStart := true, bEnd := true,
      pat := [Piece.lit "to the power of ".data, Piece.wordRun],
      rep := [RepPiece.lit "^\x7b".data, RepPiece.cap 0, RepPiece.lit "\x7d".data] },
    { bStart := true, bEnd := true,
      pat := [Piece.lit "to the ".data, Piece.wordRun, Piece.lit " power".data],
      rep := [RepPiece.lit "^\x7b".data, RepPiece.cap 0, RepPiece.lit "\x7d".data] },
    wordRule "fraction" "\\frac",
    { bStart := false, bEnd := false,
      pat := [Piece.digitRun, Piece.lit " over ".data, Piece.digitRun],
      rep := [RepPiece.lit "\\frac\x7b".data, RepPiece.cap 0,
              RepPiece.lit "\x7d\x7b".data, RepPiece.cap 1,
              RepPiece.lit "\x7d".data] },
    wordRule "integral" "\\int ",
    { bStart := true, bEnd := true,
      pat := [Piece.lit "from ".data, Piece.wordRun, Piece.lit " to ".data,
              Piece.wordRun],
      rep := [RepPiece.lit "_\x7b".data, RepPiece.cap 0,
              RepPiece.lit "\x7d^\x7b".data, RepPiece.cap 1,
              RepPiece.lit "\x7d".data] },
    wordRule "derivative of" "\\frac\x7bd\x7d\x7bdx\x7d",
    wordRule "sine" "\\sin ",
    wordRule "cosine" "\\cos ",
    wordRule "tangent" "\\tan ",
    wordRule "pi" "\\pi ",
    wordRule "square root of" "\\sqrt\x7b",
    wordRule "cube root of" "\\sqrt[3]\x7b",
    wordRule "left parenthesis" "(",
    wordRule "right parenthesis" ")",
    { bStart := false, bEnd := false,
      pat := [Piece.wsRun], rep := [RepPiece.lit " ".data] } ]

/-- The normalizer before the bracket-balance repair: lower-case, the
word-number pass, the ordered substitution chain, and `trim`. -/
def preRepair (s : String) : List Char :=
  trimBoth (applyRules mathRules (applyRules numberRules (s.data.map toLowerAscii)))

/-- The phrase normalizer `convertToLatex` of the `Home` component
(source lines 61–139). -/
def convertToLatex (s : String) : String :=
  String.mk (braceRepair (preRepair s))

/-! ## Claims about the phrase normalizer -/

/-- C1: `convertToLatex` is a total function — it returns a string for every
input (it is a total Lean function; every stage is a terminating scan), the
empty string and strings with no recognized phrase pass through unchanged,
and unrecognized words are merged as literal text with converted tokens. -/
theorem C1_convertToLatex_total :
    (∀ s : String, ∃ t : String, convertToLatex s = t) ∧
    convertToLatex "" = "" ∧
    convertToLatex "blah walnut blah" = "blah walnut blah" ∧
    convertToLatex "blah plus blah" = "blah + blah" := by
  refine ⟨fun s => ⟨convertToLatex s, rfl⟩, by decide, ?_, ?_⟩
  · have h : preRepair "blah walnut blah" = "blah walnut blah".data := by decide
    show String.mk (braceRepair (preRepair "blah walnut blah")) = _
    rw [h]; decide
  · have h : preRepair "blah plus blah" = "blah + blah".data := by decide
    show String.mk (braceRepair (preRepair "blah plus blah")) = _
    rw [h]; decide

/-- C2 counterexample: "square root of 1 over 2" is a sequence of well-formed
phrases ("square root of" and the fraction "1 over 2"), yet the output has
three brace-opening characters introduced by the root and fraction tokens and
only two closing braces: the two `}` of `\frac{1}{2}` mask the unclosed
`\sqrt{`, so the repair step (`openSqrt > closeBraces`) does not fire and the
counts differ. -/
theorem C2_cex_bracket_balance :
    convertToLatex "square root of 1 over 2" = "\\sqrt\x7b \\frac\x7b1\x7d\x7b2\x7d" ∧
    (convertToLatex "square root of 1 over 2").data.count '\x7b' = 3 ∧
    (convertToLatex "square root of 1 over 2").data.count '\x7d' = 2 := by
  have h : preRepair "square root of 1 over 2"
      = "\\sqrt\x7b \\frac\x7b1\x7d\x7b2\x7d".data := by decide
  have hc : convertToLatex "square root of 1 over 2"
      = "\\sqrt\x7b \\frac\x7b1\x7d\x7b2\x7d" := by
    show String.mk (braceRepair (preRepair "square root of 1 over 2")) = _
    rw [h]; decide
  refine ⟨hc, ?_, ?_⟩ <;> rw [hc] <;> decide

/-- C2 amended: the repair step appends exactly the deficit of `}` measured
against the root openers alone — the final number of `}` characters is the
maximum of the `\sqrt{`/`\sqrt[n]{` opener count and the number of `}`
already present before repair (so it is never below the opener count), but
`}` introduced by fraction/power tokens can mask an unclosed root brace, and
`{`/`}` need not balance when roots and fractions mix. -/
theorem C2_bracket_balance_amended (s : String) :
    openSqrtCount (preRepair s) ≤ (convertToLatex s).data.count '\x7d' ∧
    (convertToLatex s).data.count '\x7d'
      = max (openSqrtCount (preRepair s)) ((preRepair s).count '\x7d') := by
  simp only [convertToLatex]
  generalize preRepair s = l
  show openSqrtCount l ≤ (braceRepair l).count '\x7d' ∧
    (braceRepair l).count '\x7d' = max (openSqrtCount l) (l.count '\x7d')
  unfold braceRepair
  by_cases h : l.count '\x7d' < openSqrtCount l
  · simp only [h, if_true]
    rw [List.count_append, List.count_replicate]
    simp only [beq_self_eq_true, if_true]
    omega
  · simp only [h, if_false]
    omega

/-- C3: in the source, `\bequal to\b` is replaced *before* `\bis equal to\b`
(lines 93 and 95), so on "a is equal to b" the earlier rule consumes
"equal to" first and the word "is" survives: the output is "a is = b", not
"a = b" — the `is equal to` rule of line 95 can never fire.  The spec's
ordering requirement ("is equal to" before "equal to" before "equals") is
the evident intent; this theorem evaluates the code at the failing input. -/
theorem C3_is_equal_to_residual :
    convertToLatex "a is equal to b" = "a is = b" ∧
    convertToLatex "a is equal to b" ≠ "a = b" := by
  have h : preRepair "a is equal to b" = "a is = b".data := by decide
  have hc : convertToLatex "a is equal to b" = "a is = b" := by
    show String.mk (braceRepair (preRepair "a is equal to b")) = _
    rw [h]; decide
  exact ⟨hc, by rw [hc]; decide⟩

/-- C4 counterexample: `convertToLatex "square root of 4"` is not the string
`\sqrt{4}` claimed by the spec — the space that followed "of" in the input
is retained inside the braces. -/
theorem C4_cex_sqrt_four :
    convertToLatex "square root of 4" ≠ "\\sqrt\x7b4\x7d" := by
  have h : preRepair "square root of 4" = "\\sqrt\x7b 4".data := by decide
  have hc : convertToLatex "square root of 4" = "\\sqrt\x7b 4\x7d" := by
    show String.mk (braceRepair (preRepair "square root of 4")) = _
    rw [h]; decide
  rw [hc]; decide

/-- C4 amended: `convertToLatex "square root of 4"` returns `\sqrt{ 4}` —
the closing brace is auto-appended by the bracket-balance repair, and the
space after "of" is preserved in front of the 4. -/
theorem C4_sqrt_four_amended :
    convertToLatex "square root of 4" = "\\sqrt\x7b 4\x7d" := by
  have h : preRepair "square root of 4" = "\\sqrt\x7b 4".data := by decide
  show String.mk (braceRepair (preRepair "square root of 4")) = _
  rw [h]; decide

/-- C5: for every entry of the `wordToNumber` table ("zero".."ten" ↦ "0".."10"),
the word form normalizes to the digit string, the digit string is left
untouched, and — thanks to the `\b` word boundaries — an occurrence of the
number name strictly inside another word (here embedded between two `x`s)
is untouched. -/
theorem C5_word_numbers :
    ∀ p ∈ wordToNumber,
      convertToLatex p.1 = p.2 ∧
      convertToLatex p.2 = p.2 ∧
      convertToLatex ("x" ++ p.1 ++ "x") = "x" ++ p.1 ++ "x" := by decide

/-- C5 witness: the table entry ("four", "4") satisfies the three clauses. -/
theorem C5_word_numbers_witness :
    (("four", "4") ∈ wordToNumber) ∧
    (convertToLatex "four" = "4" ∧
     convertToLatex "4" = "4" ∧
     convertToLatex ("x" ++ "four" ++ "x") = "x" ++ "four" ++ "x") :=
  ⟨by decide, C5_word_numbers ("four", "4") (by decide)⟩

/-!
## Recording session controller (`AudioRecorder/index.jsx`)

`startRecording` (lines 175–212) acquires the device, creates and starts a
`MediaRecorder`, resets the chunk buffer, and installs a 1-second
`setInterval` timer whose callback increments a `seconds` counter, mirrors
it into the `recordingTime` React state, requests a data chunk while the
recorder is in state `recording`, and calls `stopRecording()` as soon as
`seconds >= 30`.  `stopRecording` (lines 214–226) stops the recorder and
its tracks only when a recorder exists and its state is not `'inactive'`,
clears the interval timer when one is set, and resets `recordingTime` to 0.
The model below makes the externally visible recorder/track/timer operations
explicit as an action trace.
-/

/-- `MediaRecorder.state` as used by the component (`'recording'` after
`start()`, `'inactive'` after `stop()`; `'paused'` is never used). -/
inductive RecState where
  | recording
  | inactive
deriving DecidableEq

/-- Externally visible operations performed by `stopRecording`. -/
inductive RecAction where
  | recorderStop
  | tracksStop
  | clearTimer
deriving DecidableEq

/-- The recording session state owned by the component: the recorder (if one
was created) with its state, whether the interval timer is installed, the
`seconds` counter of the timer closure, and the `recordingTime` React state. -/
structure RecSession where
  recorder : Option RecState
  timer : Bool
  seconds : Nat
  recordingTime : Nat
deriving DecidableEq

/-- `stopRecording` (source lines 214–226): stop recorder and tracks only if
a recorder exists in a non-`inactive` state, clear the timer if set, reset
`recordingTime` to 0.  Returns the new session state and the performed
actions. -/
def stopRecording (s : RecSession) : RecSession × List RecAction :=
  let recActive : Bool := s.recorder = some RecState.recording
  let s1 := if recActive then { s with recorder := some RecState.inactive } else s
  let a1 := if recActive then [RecAction.recorderStop, RecAction.tracksStop] else []
  let s2 := if s1.timer then { s1 with timer := false } else s1
  let a2 := if s1.timer then [RecAction.clearTimer] else []
  ({ s2 with recordingTime := 0 }, a1 ++ a2)

/-- The session right after a successful `startRecording` (lines 175–207):
recorder created and started, interval timer installed, `seconds = 0`. -/
def startSession : RecSession :=
  { recorder := some RecState.recording, timer := true, seconds := 0,
    recordingTime := 0 }

/-- One firing of the interval callback (lines 196–207): if the timer is
still installed, increment `seconds`, mirror it into `recordingTime`
(the `requestData()` chunk flush does not change the session state), and
call `stopRecording` once `seconds >= 30`.  A cleared timer never fires. -/
def tick (s : RecSession) : RecSession :=
  if s.timer then
    let s' := { s with seconds := s.seconds + 1, recordingTime := s.seconds + 1 }
    if 30 ≤ s'.seconds then (stopRecording s').1 else s'
  else s

/-- `n` firings of the 1-second interval timer (one per elapsed second). -/
def ticks : Nat → RecSession → RecSession
  | 0, s => s
  | n + 1, s => tick (ticks n s)

/-- Before the 30th tick the session still records: after `n < 30` seconds
the state is exactly `seconds = recordingTime = n`, still recording. -/
theorem ticks_lt_30 : ∀ n, n < 30 →
    ticks n startSession
      = { recorder := some RecState.recording, timer := true, seconds := n,
          recordingTime := n } := by
  intro n
  induction n with
  | zero => intro _; rfl
  | succ m ih =>
    intro h
    have hm : m < 30 := Nat.lt_of_succ_lt h
    show tick (ticks m startSession) = _
    rw [ih hm]
    have hlt : ¬ 30 ≤ m + 1 := by omega
    simp [tick, hlt]

/-! ## Claims about the recording session controller -/

/-- C7: auto-stop fires at exactly the 30-second ceiling — for a session
that is started and never explicitly stopped, after `n < 30` timer firings
the recorder is still `recording` (so the session is not stopped before
30 s), and at the 30th firing (`seconds` reaches 30) the periodic callback
invokes `stopRecording` and the recorder is `inactive`. -/
theorem C7_auto_stop_at_30 (n : Nat) (h : n < 30) :
    (ticks n startSession).recorder = some RecState.recording ∧
    (ticks 30 startSession).recorder = some RecState.inactive := by
  constructor
  · rw [ticks_lt_30 n h]
  · show (tick (ticks 29 startSession)).recorder = some RecState.inactive
    rw [ticks_lt_30 29 (by omega)]
    decide

/-- C7 witness: at 7 elapsed seconds the session still records; at 30 it is
stopped. -/
theorem C7_auto_stop_at_30_witness :
    (7 < 30) ∧
    ((ticks 7 startSession).recorder = some RecState.recording ∧
     (ticks 30 startSession).recorder = some RecState.inactive) :=
  ⟨by decide, C7_auto_stop_at_30 7 (by decide)⟩

/-- C8: `stopRecording` is idempotent, and on an already-stopped session it
is a no-op.  First conjunct: on any session whose recorder is not actively
recording, whose timer is cleared and whose `recordingTime` is 0 — exactly
the state any call to `stopRecording` leaves behind — a call performs no
recorder, track or timer operation and leaves the state unchanged.  Second
conjunct: a second `stopRecording` right after a first one performs no
actions and changes nothing, for every starting session. -/
theorem C8_stop_idempotent (s : RecSession)
    (hrec : s.recorder ≠ some RecState.recording)
    (htimer : s.timer = false) (htime : s.recordingTime = 0) :
    stopRecording s = (s, []) ∧
    (∀ t : RecSession, stopRecording (stopRecording t).1 = ((stopRecording t).1, [])) := by
  constructor
  · have hb : (s.recorder = some RecState.recording) = False := by
      simp [hrec]
    cases s with
    | mk rec tm sec rt =>
      simp only at hb htimer htime
      subst htimer htime
      simp [stopRecording, hb]
  · intro t
    cases t with
    | mk rec tm sec rt =>
      cases rec with
      | none => cases tm <;> simp [stopRecording]
      | some st => cases st <;> cases tm <;> simp [stopRecording]

/-- C8 witness: the freshly-stopped session obtained by stopping
`startSession` satisfies the hypotheses, and stopping it again is a no-op. -/
theorem C8_stop_idempotent_witness :
    ({ recorder := some RecState.inactive, timer := false, seconds := 0,
       recordingTime := 0 : RecSession }.recorder ≠ some RecState.recording) ∧
    (stopRecording { recorder := some RecState.inactive, timer := false,
                     seconds := 0, recordingTime := 0 }
       = ({ recorder := some RecState.inactive, timer := false, seconds := 0,
            recordingTime := 0 }, []) ∧
     (∀ t : RecSession, stopRecording (stopRecording t).1 = ((stopRecording t).1, []))) :=
  ⟨by decide,
   C8_stop_idempotent
     { recorder := some RecState.inactive, timer := false, seconds := 0,
       recordingTime := 0 }
     (by decide) (by decide) (by decide)⟩

/-!
## Staged transcription workflow (`sendAudioToBackend`, lines 97–173)

The function performs three HTTP requests in sequence — `POST
/get-upload-url`, `PUT <presigned S3 url>`, `POST /transcribe` — and throws
(aborting the rest of the body) at the first failed check.  The model takes
the environment's responses as input and returns the thrown error or the
final result, together with the list of requests actually issued.
-/

/-- The three outgoing requests of the staged workflow, in order. -/
inductive BackendReq where
  | getUploadUrl
  | putS3
  | startTranscribe
deriving DecidableEq

/-- The responses the environment would give to each request: HTTP-level
success (`response.ok`) and status, the JSON `success` flags and payloads. -/
structure StagedEnv where
  uploadUrlOk : Bool
  uploadUrlStatus : Nat
  uploadUrlSuccess : Bool
  uploadUrlError : Option String
  s3Ok : Bool
  s3Status : Nat
  transcribeOk : Bool
  transcribeStatus : Nat
  transcribeSuccess : Bool
  transcribeError : Option String
  transcriptText : String
  latexCode : String

/-- `sendAudioToBackend`: each `throw` aborts the function, so later
requests are issued only when every earlier check passed.  Returns the
thrown error message or the `(transcript, latex)` result handed to
`onRecordingComplete`, and the requests issued. -/
def sendAudioToBackend (env : StagedEnv) :
    Except String (String × String) × List BackendReq :=
  if !env.uploadUrlOk then
    (Except.error ("Failed to get upload URL: " ++ toString env.uploadUrlStatus),
     [BackendReq.getUploadUrl])
  else if !env.uploadUrlSuccess then
    (Except.error (env.uploadUrlError.getD "Failed to generate upload URL"),
     [BackendReq.getUploadUrl])
  else if !env.s3Ok then
    (Except.error ("S3 upload failed: " ++ toString env.s3Status),
     [BackendReq.getUploadUrl, BackendReq.putS3])
  else if !env.transcribeOk then
    (Except.error ("Transcription failed: " ++ toString env.transcribeStatus),
     [BackendReq.getUploadUrl, BackendReq.putS3, BackendReq.startTranscribe])
  else if !env.transcribeSuccess then
    (Except.error (env.transcribeError.getD "Transcription failed"),
     [BackendReq.getUploadUrl, BackendReq.putS3, BackendReq.startTranscribe])
  else
    (Except.ok (env.transcriptText, env.latexCode),
     [BackendReq.getUploadUrl, BackendReq.putS3, BackendReq.startTranscribe])

/-- C6: if step 1 succeeded but step 2 (the storage `PUT` of the audio
object) returns a non-success status, the whole operation fails with the
storage-write error `"S3 upload failed: <status>"` and the transcription
job-start request (step 3) is never issued. -/
theorem C6_upload_failure_stops_pipeline (env : StagedEnv)
    (h1 : env.uploadUrlOk = true) (h2 : env.uploadUrlSuccess = true)
    (h3 : env.s3Ok = false) :
    (sendAudioToBackend env).1
      = Except.error ("S3 upload failed: " ++ toString env.s3Status) ∧
    BackendReq.startTranscribe ∉ (sendAudioToBackend env).2 := by
  simp [sendAudioToBackend, h1, h2, h3]

/-- C6 witness: a concrete environment whose S3 `PUT` answers 403. -/
theorem C6_upload_failure_stops_pipeline_witness :
    (({ uploadUrlOk := true, uploadUrlStatus := 200, uploadUrlSuccess := true,
        uploadUrlError := none, s3Ok := false, s3Status := 403,
        transcribeOk := true, transcribeStatus := 200,
        transcribeSuccess := true, transcribeError := none,
        transcriptText := "t", latexCode := "l" : StagedEnv }).uploadUrlOk = true) ∧
    ((sendAudioToBackend
        { uploadUrlOk := true, uploadUrlStatus := 200, uploadUrlSuccess := true,
          uploadUrlError := none, s3Ok := false, s3Status := 403,
          transcribeOk := true, transcribeStatus := 200,
          transcribeSuccess := true, transcribeError := none,
          transcriptText := "t", latexCode := "l" }).1
       = Except.error ("S3 upload failed: " ++ toString (403 : Nat)) ∧
     BackendReq.startTranscribe ∉
       (sendAudioToBackend
         { uploadUrlOk := true, uploadUrlStatus := 200, uploadUrlSuccess := true,
           uploadUrlError := none, s3Ok := false, s3Status := 403,
           transcribeOk := true, transcribeStatus := 200,
           transcribeSuccess := true, transcribeError := none,
           transcriptText := "t", latexCode := "l" }).2) :=
  ⟨rfl,
   C6_upload_failure_stops_pipeline
     { uploadUrlOk := true, uploadUrlStatus := 200, uploadUrlSuccess := true,
       uploadUrlError := none, s3Ok := false, s3Status := 403,
       transcribeOk := true, transcribeStatus := 200,
       transcribeSuccess := true, transcribeError := none,
       transcriptText := "t", latexCode := "l" }
     rfl rfl rfl⟩

/-!
## Chunk buffering (`handleDataAvailable` / `handleStop`, lines 85–95)

`handleDataAvailable` appends `event.data` to `audioChunksRef.current` only
when `event.data.size > 0`; `handleStop` builds the blob from the buffered
chunks and immediately resets the buffer to `[]`.  `startRecording` (line
177) also resets the buffer before a new session.  A chunk is modelled by
its size and an identifying payload tag.
-/

/-- An audio chunk delivered by the capture device: its byte size and an
identifier distinguishing its payload. -/
structure Chunk where
  size : Nat
  id : Nat
deriving DecidableEq

/-- `handleDataAvailable` (lines 85–89): push the chunk iff its size is
positive. -/
def handleDataAvailable (buf : List Chunk) (c : Chunk) : List Chunk :=
  if 0 < c.size then buf ++ [c] else buf

/-- Deliver a sequence of chunks, in arrival order. -/
def deliverAll (buf : List Chunk) (cs : List Chunk) : List Chunk :=
  cs.foldl handleDataAvailable buf

/-- `handleStop` (lines 91–95): the finalized blob is the buffered chunk
list, and the buffer is reset to `[]`. -/
def handleStop (buf : List Chunk) : List Chunk × List Chunk :=
  (buf, [])

/-- The buffer after a delivery sequence is the prior buffer followed by the
non-empty chunks, in arrival order. -/
theorem deliverAll_eq (cs : List Chunk) :
    ∀ buf, deliverAll buf cs = buf ++ cs.filter (fun c => decide (0 < c.size)) := by
  induction cs with
  | nil => intro buf; simp [deliverAll]
  | cons c t ih =>
    intro buf
    show deliverAll (handleDataAvailable buf c) t = _
    rw [ih]
    by_cases h : 0 < c.size
    · simp [handleDataAvailable, h]
    · simp [handleDataAvailable, h]

/-- C10: per-session audio isolation.  For any arrival sequence of a session
starting from the empty buffer (as set by `startRecording` and by the
previous `handleStop`), the finalized blob is exactly the subsequence of
chunks with positive size, in arrival order; the stop handler resets the
buffer to empty; and a subsequent session starting from that reset buffer
finalizes a blob containing exactly its own positive-size chunks — no chunk
of the first session. -/
theorem C10_chunk_isolation (cs cs2 : List Chunk) :
    (handleStop (deliverAll [] cs)).1 = cs.filter (fun c => decide (0 < c.size)) ∧
    (handleStop (deliverAll [] cs)).2 = [] ∧
    (handleStop (deliverAll (handleStop (deliverAll [] cs)).2 cs2)).1
      = cs2.filter (fun c => decide (0 < c.size)) := by
  refine ⟨?_, rfl, ?_⟩
  · show deliverAll [] cs = _
    rw [deliverAll_eq]
    simp
  · show deliverAll (handleStop (deliverAll [] cs)).2 cs2 = _
    show deliverAll [] cs2 = _
    rw [deliverAll_eq]
    simp

/-!
## Markdown-fence cleanup of the generative service (`geminiService.js`, 60–69)

The coordinator receives the candidate text and runs
`latexCode.trim()`, then `.replace(/```latex\s*/g, '')`, then
`.replace(/```\s*/g, '')`, then a final `.trim()`.
-/

/-- The regex `/```latex\s*/g` — a backtick fence tagged `latex`, with any
following whitespace. -/
def fenceTagRule : Rule :=
  { bStart := false, bEnd := false,
    pat := [Piece.lit ['\x60', '\x60', '\x60', 'l', 'a', 't', 'e', 'x'], Piece.wsStar],
    rep := [] }

/-- The regex `/```\s*/g` — a bare backtick fence with any following
whitespace. -/
def fenceRule : Rule :=
  { bStart := false, bEnd := false,
    pat := [Piece.lit ['\x60', '\x60', '\x60'], Piece.wsStar],
    rep := [] }

/-- The characters of the tagged opening fence `"```latex\n"`. -/
def tagOpenChars : List Char :=
  ['\x60', '\x60', '\x60', 'l', 'a', 't', 'e', 'x', '\n']

/-- The characters of the bare opening fence `"```\n"`. -/
def plainOpenChars : List Char := ['\x60', '\x60', '\x60', '\n']

/-- The characters of the closing fence `"\n```"`. -/
def closeFenceChars : List Char := ['\n', '\x60', '\x60', '\x60']

/-- The cleanup `geminiService.convertToLatex` applies to the candidate text
before treating it as LaTeX (lines 60–69): trim, strip `/```latex\s*/g`,
strip `/```\s*/g`, trim again. -/
def cleanedLatexOf (latexCode : String) : String :=
  String.mk (trimBoth (runRule fenceRule (runRule fenceTagRule (trimBoth latexCode.data))))

/-! ### Scanner lemmas -/

/-- A rule without a leading `\b` never looks at the previous character. -/
theorem applyRule_prev_irrel {r : Rule} (hr : r.bStart = false)
    (p q : Option Char) (c : Char) (cs : List Char) :
    applyRule r p c cs = applyRule r q c cs := by
  simp [applyRule, hr]

/-- The scan of a rule without a leading `\b` does not depend on the
previous-character argument. -/
theorem runRuleFuel_prev_irrel {r : Rule} (hr : r.bStart = false)
    (fuel : Nat) (p q : Option Char) (l : List Char) :
    runRuleFuel r fuel p l = runRuleFuel r fuel q l := by
  cases l with
  | nil => cases fuel <;> rfl
  | cons c cs =>
    cases fuel with
    | zero => rfl
    | succ n => simp only [runRuleFuel, applyRule_prev_irrel hr p q c cs]

/-- Unfolding one scan step on a matching position. -/
theorem runRuleFuel_step_some (r : Rule) (fuel : Nat) (p : Option Char)
    (c : Char) (cs rep : List Char) (k : Nat)
    (ha : applyRule r p c cs = some (rep, k)) :
    runRuleFuel r (Nat.succ fuel) p (c :: cs)
      = rep ++ runRuleFuel r fuel (some ((cs.take k).getLastD c)) (cs.drop k) := by
  simp only [runRuleFuel, ha]

/-- Unfolding one scan step on a non-matching position. -/
theorem runRuleFuel_step_none (r : Rule) (fuel : Nat) (p : Option Char)
    (c : Char) (cs : List Char) (ha : applyRule r p c cs = none) :
    runRuleFuel r (Nat.succ fuel) p (c :: cs)
      = c :: runRuleFuel r fuel (some c) cs := by
  simp only [runRuleFuel, ha]

/-- The fuel argument is irrelevant as long as it covers the input length:
each step spends one unit of fuel and at least one input character. -/
theorem runRuleFuel_fuel_irrel (r : Rule) :
    ∀ (n : Nat) (l : List Char) (p : Option Char), l.length ≤ n →
      ∀ (m : Nat), l.length ≤ m → runRuleFuel r n p l = runRuleFuel r m p l := by
  intro n
  induction n with
  | zero =>
    intro l p h m hm
    cases l with
    | nil => cases m <;> rfl
    | cons c cs => exact absurd h (by simp)
  | succ n ih =>
    intro l p h m hm
    cases l with
    | nil => cases m <;> rfl
    | cons c cs =>
      cases m with
      | zero => exact absurd hm (by simp)
      | succ m' =>
        simp only [runRuleFuel]
        cases happ : applyRule r p c cs with
        | none =>
          simp only [happ]
          have h1 : cs.length ≤ n := by
            have := List.length_cons c cs; omega
          have h2 : cs.length ≤ m' := by
            have := List.length_cons c cs; omega
          exact congrArg (c :: ·) (ih cs (some c) h1 m' h2)
        | some v =>
          obtain ⟨rep, k⟩ := v
          simp only [happ]
          have hd : (cs.drop k).length ≤ cs.length := by
            rw [List.length_drop]; omega
          have h1 : (cs.drop k).length ≤ n := by
            have := List.length_cons c cs; omega
          have h2 : (cs.drop k).length ≤ m' := by
            have := List.length_cons c cs; omega
          exact congrArg (rep ++ ·)
            (ih (cs.drop k) (some ((cs.take k).getLastD c)) h1 m' h2)

/-- One `runRule` step on a non-matching position, for rules without `\b`. -/
theorem runRule_cons_none {r : Rule} (hr : r.bStart = false)
    (c : Char) (cs : List Char) (ha : applyRule r none c cs = none) :
    runRule r (c :: cs) = c :: runRule r cs := by
  show runRuleFuel r (Nat.succ cs.length) none (c :: cs)
    = c :: runRuleFuel r cs.length none cs
  exact (runRuleFuel_step_none r cs.length none c cs ha).trans
    (congrArg (c :: ·) (runRuleFuel_prev_irrel hr cs.length (some c) none cs))

/-- One `runRule` step on a matching position, for rules without `\b`. -/
theorem runRule_cons_some {r : Rule} (hr : r.bStart = false)
    (c : Char) (cs rep : List Char) (k : Nat)
    (ha : applyRule r none c cs = some (rep, k)) :
    runRule r (c :: cs) = rep ++ runRule r (cs.drop k) := by
  show runRuleFuel r (Nat.succ cs.length) none (c :: cs)
    = rep ++ runRuleFuel r (cs.drop k).length none (cs.drop k)
  refine (runRuleFuel_step_some r cs.length none c cs rep k ha).trans
    (congrArg (rep ++ ·) ?_)
  refine (runRuleFuel_prev_irrel hr cs.length _ none (cs.drop k)).trans ?_
  refine runRuleFuel_fuel_irrel r cs.length (cs.drop k) none ?_ (cs.drop k).length (Nat.le_refl _)
  rw [List.length_drop]; omega

/-- A fence rule (its pattern starts with the literal backtick) cannot match
at a position holding any other character. -/
theorem applyRule_fence_none {r : Rule} {u : List Char} {ps : List Piece}
    (hpat : r.pat = Piece.lit ('\x60' :: u) :: ps) (hr : r.bStart = false)
    (p : Option Char) (c : Char) (cs : List Char) (hc : c ≠ '\x60') :
    applyRule r p c cs = none := by
  have hlit : takeLit ('\x60' :: u) (c :: cs) = none := by
    simp [takeLit, hc]
  simp [applyRule, hr, hpat, matchPieces, hlit]

/-- A fence scan passes over a backtick-free segment unchanged. -/
theorem runRuleFuel_no_backtick_append {r : Rule} {u : List Char} {ps : List Piece}
    (hpat : r.pat = Piece.lit ('\x60' :: u) :: ps) (hr : r.bStart = false) :
    ∀ (l1 : List Char), ('\x60' : Char) ∉ l1 →
      ∀ (m : Nat) (p : Option Char) (l2 : List Char),
        runRuleFuel r (l1.length + m) p (l1 ++ l2)
          = l1 ++ runRuleFuel r m none l2 := by
  intro l1
  induction l1 with
  | nil =>
    intro _ m p l2
    simp only [List.nil_append, List.length_nil, Nat.zero_add]
    exact runRuleFuel_prev_irrel hr m p none l2
  | cons c cs ih =>
    intro hmem m p l2
    have hc : c ≠ '\x60' := fun h => hmem (by rw [h]; exact List.mem_cons_self _ _)
    have hcs : ('\x60' : Char) ∉ cs := fun h => hmem (List.mem_cons_of_mem c h)
    have ha := applyRule_fence_none hpat hr p c (cs ++ l2) hc
    have hlen : (c :: cs).length + m = Nat.succ (cs.length + m) := by
      simp [List.length_cons]; omega
    rw [hlen, List.cons_append, runRuleFuel_step_none r (cs.length + m) p c (cs ++ l2) ha,
      ih hcs m (some c) l2]
    rfl

/-- Fence-free version of the pass-over lemma, at the `runRule` level. -/
theorem runRule_no_backtick_append {r : Rule} {u : List Char} {ps : List Piece}
    (hpat : r.pat = Piece.lit ('\x60' :: u) :: ps) (hr : r.bStart = false)
    (l1 : List Char) (hbt : ('\x60' : Char) ∉ l1) (l2 : List Char) :
    runRule r (l1 ++ l2) = l1 ++ runRule r l2 := by
  show runRuleFuel r (l1 ++ l2).length none (l1 ++ l2)
    = l1 ++ runRuleFuel r l2.length none l2
  rw [List.length_append]
  exact runRuleFuel_no_backtick_append hpat hr l1 hbt l2.length none l2

/-! ### Trim lemmas -/

/-- The reverse of a nonempty list starts with its last element. -/
theorem rev_cons_getLastD (c0 : Char) (t : List Char) :
    ∃ t', (c0 :: t).reverse = ((c0 :: t).getLastD 'x') :: t' := by
  cases hr : (c0 :: t).reverse with
  | nil => exact absurd (congrArg List.length hr) (by simp)
  | cons a b =>
    refine ⟨b, ?_⟩
    have h1 : (c0 :: t).getLast? = some a := by
      rw [List.getLast?_eq_head?_reverse, hr]; rfl
    have h2 : (c0 :: t).getLastD 'x' = a := by
      rw [List.getLastD_eq_getLast?, h1]; rfl
    rw [h2]

/-- `trim` leaves a string alone when neither end is whitespace. -/
theorem trimBoth_no_ws_ends (c0 : Char) (t : List Char)
    (h0 : isWsChar c0 = false)
    (hlast : isWsChar ((c0 :: t).getLastD 'x') = false) :
    trimBoth (c0 :: t) = c0 :: t := by
  have h1 : trimL (c0 :: t) = c0 :: t := by
    simp [trimL, h0]
  obtain ⟨t', hrev⟩ := rev_cons_getLastD c0 t
  have h2 : trimR (c0 :: t) = c0 :: t := by
    unfold trimR
    rw [hrev, List.dropWhile_cons_of_neg (by simpa using hlast), ← hrev,
      List.reverse_reverse]
  unfold trimBoth
  rw [h1, h2]

/-- `trim` removes exactly a trailing newline from a string whose own ends
are not whitespace. -/
theorem trimBoth_cons_newline (c0 : Char) (t : List Char)
    (h0 : isWsChar c0 = false)
    (hlast : isWsChar ((c0 :: t).getLastD 'x') = false) :
    trimBoth ((c0 :: t) ++ ['\n']) = c0 :: t := by
  have h1 : trimL ((c0 :: t) ++ ['\n']) = (c0 :: t) ++ ['\n'] := by
    rw [show (c0 :: t) ++ ['\n'] = c0 :: (t ++ ['\n']) from rfl]
    simp [trimL, h0]
  obtain ⟨t', hrev⟩ := rev_cons_getLastD c0 t
  have h2 : trimR ((c0 :: t) ++ ['\n']) = c0 :: t := by
    unfold trimR
    rw [List.reverse_append]
    rw [show (['\n'] : List Char).reverse ++ (c0 :: t).reverse
        = '\n' :: (c0 :: t).reverse from by simp]
    rw [List.dropWhile_cons_of_pos (by rfl)]
    rw [hrev, List.dropWhile_cons_of_neg (by simpa using hlast), ← hrev,
      List.reverse_reverse]
  unfold trimBoth
  rw [h1, h2]

/-- Anything closed by the fence `"\n```"` ends in a backtick. -/
theorem getLastD_append_close (l : List Char) :
    (l ++ closeFenceChars).getLastD 'x' = '\x60' := by
  rw [List.getLastD_eq_getLast?, List.getLast?_append]
  rfl

/-- The initial `trim` leaves a fenced candidate text alone: it starts with
a backtick and ends with the closing fence. -/
theorem trimBoth_fence_full (l : List Char) (c1 : Char) (rest : List Char)
    (hform : l ++ closeFenceChars = c1 :: rest) (hc1 : isWsChar c1 = false) :
    trimBoth (l ++ closeFenceChars) = l ++ closeFenceChars := by
  have hlast : isWsChar ((l ++ closeFenceChars).getLastD 'x') = false := by
    rw [getLastD_append_close]; rfl
  rw [hform] at hlast
  rw [hform]
  exact trimBoth_no_ws_ends c1 rest hc1 hlast

/-! ### The two replace passes on fenced candidate texts -/

/-- Pass 1 (`/```latex\s*/g`) on a tagged fenced text removes the opening
fence together with the newline that follows it; the closing fence offers no
`latex` tag and survives. -/
theorem runRule_fenceTag_tagged (c0 : Char) (t : List Char)
    (h0 : isWsChar c0 = false) (hbt : ('\x60' : Char) ∉ c0 :: t) :
    runRule fenceTagRule (tagOpenChars ++ (c0 :: t) ++ closeFenceChars)
      = (c0 :: t) ++ closeFenceChars := by
  have hn : isWsChar '\n' = true := rfl
  have ha : applyRule fenceTagRule none '\x60'
      (['\x60', '\x60', 'l', 'a', 't', 'e', 'x', '\n'] ++ ((c0 :: t) ++ closeFenceChars))
      = some ([], 8) := by
    simp [applyRule, fenceTagRule, matchPieces, takeLit, buildRep, List.cons_append,
      hn, h0, closeFenceChars]
  rw [show tagOpenChars ++ (c0 :: t) ++ closeFenceChars
      = '\x60' :: (['\x60', '\x60', 'l', 'a', 't', 'e', 'x', '\n']
          ++ ((c0 :: t) ++ closeFenceChars)) from rfl]
  rw [runRule_cons_some rfl '\x60'
      (['\x60', '\x60', 'l', 'a', 't', 'e', 'x', '\n'] ++ ((c0 :: t) ++ closeFenceChars))
      [] 8 ha]
  rw [show (List.drop 8 (['\x60', '\x60', 'l', 'a', 't', 'e', 'x', '\n']
      ++ ((c0 :: t) ++ closeFenceChars))) = (c0 :: t) ++ closeFenceChars from rfl]
  rw [List.nil_append]
  rw [runRule_no_backtick_append rfl rfl (c0 :: t) hbt closeFenceChars]
  rw [show runRule fenceTagRule closeFenceChars = closeFenceChars from by decide]

/-- Pass 1 is the identity on a plainly fenced text: no position offers the
`latex` tag after three backticks. -/
theorem runRule_fenceTag_plain (c0 : Char) (t : List Char)
    (hbt : ('\x60' : Char) ∉ c0 :: t) :
    runRule fenceTagRule (plainOpenChars ++ (c0 :: t) ++ closeFenceChars)
      = plainOpenChars ++ (c0 :: t) ++ closeFenceChars := by
  have ha0 : applyRule fenceTagRule none '\x60'
      (['\x60', '\x60', '\n'] ++ ((c0 :: t) ++ closeFenceChars)) = none := by
    simp [applyRule, fenceTagRule, matchPieces, takeLit, List.cons_append]
  have ha1 : applyRule fenceTagRule none '\x60'
      (['\x60', '\n'] ++ ((c0 :: t) ++ closeFenceChars)) = none := by
    simp [applyRule, fenceTagRule, matchPieces, takeLit, List.cons_append]
  have ha2 : applyRule fenceTagRule none '\x60'
      ('\n' :: ((c0 :: t) ++ closeFenceChars)) = none := by
    simp [applyRule, fenceTagRule, matchPieces, takeLit, List.cons_append]
  have ha3 : applyRule fenceTagRule none '\n' ((c0 :: t) ++ closeFenceChars) = none :=
    applyRule_fence_none rfl rfl none '\n' _ (by decide)
  rw [show plainOpenChars ++ (c0 :: t) ++ closeFenceChars
      = '\x60' :: (['\x60', '\x60', '\n'] ++ ((c0 :: t) ++ closeFenceChars)) from rfl]
  rw [runRule_cons_none rfl '\x60'
      (['\x60', '\x60', '\n'] ++ ((c0 :: t) ++ closeFenceChars)) ha0]
  rw [show (['\x60', '\x60', '\n'] : List Char) ++ ((c0 :: t) ++ closeFenceChars)
      = '\x60' :: (['\x60', '\n'] ++ ((c0 :: t) ++ closeFenceChars)) from rfl]
  rw [runRule_cons_none rfl '\x60'
      (['\x60', '\n'] ++ ((c0 :: t) ++ closeFenceChars)) ha1]
  rw [show (['\x60', '\n'] : List Char) ++ ((c0 :: t) ++ closeFenceChars)
      = '\x60' :: ('\n' :: ((c0 :: t) ++ closeFenceChars)) from rfl]
  rw [runRule_cons_none rfl '\x60' ('\n' :: ((c0 :: t) ++ closeFenceChars)) ha2]
  rw [runRule_cons_none rfl '\n' ((c0 :: t) ++ closeFenceChars) ha3]
  rw [runRule_no_backtick_append rfl rfl (c0 :: t) hbt closeFenceChars]
  rw [show runRule fenceTagRule closeFenceChars = closeFenceChars from by decide]

/-- Pass 2 (`/```\s*/g`) on pass 1's output for a tagged text removes the
closing fence, leaving the newline that preceded it. -/
theorem runRule_fence_inner (c0 : Char) (t : List Char)
    (hbt : ('\x60' : Char) ∉ c0 :: t) :
    runRule fenceRule ((c0 :: t) ++ closeFenceChars) = (c0 :: t) ++ ['\n'] := by
  rw [runRule_no_backtick_append rfl rfl (c0 :: t) hbt closeFenceChars]
  rw [show runRule fenceRule closeFenceChars = ['\n'] from by decide]

/-- Pass 2 on a plainly fenced text removes the opening fence with its
newline and the closing fence, leaving the newline before the latter. -/
theorem runRule_fence_plain (c0 : Char) (t : List Char)
    (h0 : isWsChar c0 = false) (hbt : ('\x60' : Char) ∉ c0 :: t) :
    runRule fenceRule (plainOpenChars ++ (c0 :: t) ++ closeFenceChars)
      = (c0 :: t) ++ ['\n'] := by
  have hn : isWsChar '\n' = true := rfl
  have ha : applyRule fenceRule none '\x60'
      (['\x60', '\x60', '\n'] ++ ((c0 :: t) ++ closeFenceChars)) = some ([], 3) := by
    simp [applyRule, fenceRule, matchPieces, takeLit, buildRep, List.cons_append,
      hn, h0, closeFenceChars]
  rw [show plainOpenChars ++ (c0 :: t) ++ closeFenceChars
      = '\x60' :: (['\x60', '\x60', '\n'] ++ ((c0 :: t) ++ closeFenceChars)) from rfl]
  rw [runRule_cons_some rfl '\x60'
      (['\x60', '\x60', '\n'] ++ ((c0 :: t) ++ closeFenceChars)) [] 3 ha]
  rw [show (List.drop 3 (['\x60', '\x60', '\n'] ++ ((c0 :: t) ++ closeFenceChars)))
      = (c0 :: t) ++ closeFenceChars from rfl]
  rw [List.nil_append]
  rw [runRule_no_backtick_append rfl rfl (c0 :: t) hbt closeFenceChars]
  rw [show runRule fenceRule closeFenceChars = ['\n'] from by decide]

/-- C9: the conversion coordinator strips markdown code fencing.  For every
backtick-free candidate text whose ends are not whitespace, wrapped in a
triple-backtick block — tagged `latex` or untagged — the cleanup returns
exactly the inner content (its surrounding whitespace trimmed away with the
fences), and the result contains no backtick at all. -/
theorem C9_fence_strip (inner : String)
    (hne : inner.data ≠ [])
    (hbt : ('\x60' : Char) ∉ inner.data)
    (hhead : isWsChar (inner.data.headD 'x') = false)
    (hlast : isWsChar (inner.data.getLastD 'x') = false) :
    cleanedLatexOf ("```latex\n" ++ inner ++ "\n```") = inner ∧
    cleanedLatexOf ("```\n" ++ inner ++ "\n```") = inner ∧
    ('\x60' : Char) ∉ (cleanedLatexOf ("```latex\n" ++ inner ++ "\n```")).data := by
  obtain ⟨c0, t, hd⟩ : ∃ c0 t, inner.data = c0 :: t := by
    cases h : inner.data with
    | nil => exact absurd h hne
    | cons a b => exact ⟨a, b, rfl⟩
  have h0 : isWsChar c0 = false := by rw [hd] at hhead; simpa using hhead
  have hl : isWsChar ((c0 :: t).getLastD 'x') = false := by
    rw [hd] at hlast; exact hlast
  have hbt' : ('\x60' : Char) ∉ c0 :: t := by rw [hd] at hbt; exact hbt
  have hdata1 : ("```latex\n" ++ inner ++ "\n```").data
      = tagOpenChars ++ (c0 :: t) ++ closeFenceChars := by
    have h : ("```latex\n" ++ inner ++ "\n```").data
        = "```latex\n".data ++ inner.data ++ "\n```".data := by simp
    rw [h, hd]; rfl
  have hdata2 : ("```\n" ++ inner ++ "\n```").data
      = plainOpenChars ++ (c0 :: t) ++ closeFenceChars := by
    have h : ("```\n" ++ inner ++ "\n```").data
        = "```\n".data ++ inner.data ++ "\n```".data := by simp
    rw [h, hd]; rfl
  have htag : cleanedLatexOf ("```latex\n" ++ inner ++ "\n```") = inner := by
    show String.mk (trimBoth (runRule fenceRule (runRule fenceTagRule
      (trimBoth ("```latex\n" ++ inner ++ "\n```").data)))) = inner
    rw [hdata1]
    rw [trimBoth_fence_full (tagOpenChars ++ (c0 :: t)) '\x60' _ rfl rfl]
    rw [runRule_fenceTag_tagged c0 t h0 hbt']
    rw [runRule_fence_inner c0 t hbt']
    rw [trimBoth_cons_newline c0 t h0 hl]
    rw [← hd]
  have hplain : cleanedLatexOf ("```\n" ++ inner ++ "\n```") = inner := by
    show String.mk (trimBoth (runRule fenceRule (runRule fenceTagRule
      (trimBoth ("```\n" ++ inner ++ "\n```").data)))) = inner
    rw [hdata2]
    rw [trimBoth_fence_full (plainOpenChars ++ (c0 :: t)) '\x60' _ rfl rfl]
    rw [runRule_fenceTag_plain c0 t hbt']
    rw [runRule_fence_plain c0 t h0 hbt']
    rw [trimBoth_cons_newline c0 t h0 hl]
    rw [← hd]
  refine ⟨htag, hplain, ?_⟩
  rw [htag]
  exact hbt

/-- C9 witness: the candidate text `x+y`, fenced both ways. -/
theorem C9_fence_strip_witness :
    ("x+y".data ≠ [] ∧ ('\x60' : Char) ∉ "x+y".data ∧
     isWsChar ("x+y".data.headD 'x') = false ∧
     isWsChar ("x+y".data.getLastD 'x') = false) ∧
    (cleanedLatexOf ("```latex\n" ++ "x+y" ++ "\n```") = "x+y" ∧
     cleanedLatexOf ("```\n" ++ "x+y" ++ "\n```") = "x+y" ∧
     ('\x60' : Char) ∉ (cleanedLatexOf ("```latex\n" ++ "x+y" ++ "\n```")).data) :=
  ⟨⟨by decide, by decide, by decide, by decide⟩,
   C9_fence_strip "x+y" (by decide) (by decide) (by decide) (by decide)⟩

end SpeakTeX
